import Mathlib

/-!
Verification of the fastgltf accessor decoding tools (`src/fastgltf_tools.hpp`)
against their natural-language specification.

The embedding is shallow: buffers are lists of byte values (`List Nat`,
entries below 256 for well-formed inputs), component values are exact
rationals (`ℚ`), machine integer conversions are modelled by explicit
two's-complement wrapping, and the caller-owned destination memory of
`copyFromAccessor` is a byte store `Nat → Nat`.

Modelling notes, applied uniformly:
* The schema record types (`Accessor`, `BufferView`, `Buffer`,
  `SparseAccessor`), the `visitor` helper and the size helpers
  `getNumComponents` / `getElementByteSize` live in `fastgltf_types.hpp`,
  which is not part of the analysed sources; they are modelled from the
  spec (sections 2 and 3: arities Scalar..Mat4 = 1,2,3,4,4,9,16 and
  component widths 8/16/32/64 bits).
* C++ undefined behaviour is made total: reading a byte outside a buffer
  (or through the adapter's null pointer) yields the junk byte 0, an
  out-of-range `std::vector` subscript yields a junk default record, and
  dereferencing the empty `optional` in `iterateAccessor` is modelled by
  an `Option.none` result of the whole operation.
* IEEE-754 decoding (`ComponentType::Float` / `Double`) is modelled
  exactly for finite bit patterns (every finite float is a rational);
  exponent-all-ones patterns (infinities, NaNs) are given arbitrary
  finite values, and the byte image of a float-kind element component is
  modelled by a placeholder bit pattern: no theorem below depends on the
  byte image of a float-kind component, every equation involving it uses
  the same encoding function on both sides.
* The C++ functions are templates over the output element type; the model
  passes the relevant data of `ElementTraits<ElementType>` (the declared
  `AccessorType` and the canonical component kind) as an explicit
  `ElementTraits` argument, and the `std::is_trivially_copyable_v`
  compile-time branch of `copyFromAccessor` as an explicit boolean.
  All built-in numeric element types are trivially copyable.
-/

set_option maxRecDepth 8000

namespace fastgltf

/-- The eight supported component storage kinds
(`fastgltf::ComponentType`, without the `Invalid` sentinel). -/
inductive ComponentType where
  | Byte
  | UnsignedByte
  | Short
  | UnsignedShort
  | Int
  | UnsignedInt
  | Float
  | Double
deriving DecidableEq, Repr

/-- Element shapes (`fastgltf::AccessorType`). -/
inductive AccessorType where
  | Invalid
  | Scalar
  | Vec2
  | Vec3
  | Vec4
  | Mat2
  | Mat3
  | Mat4
deriving DecidableEq, Repr

/-- Modelled from the spec: arity of each element shape
(`getNumComponents` of `fastgltf_types.hpp`, not among the analysed
sources; the spec gives "arity descriptor (scalar..16-wide)"). -/
def getNumComponents : AccessorType → Nat
  | .Invalid => 0
  | .Scalar => 1
  | .Vec2 => 2
  | .Vec3 => 3
  | .Vec4 => 4
  | .Mat2 => 4
  | .Mat3 => 9
  | .Mat4 => 16

/-- Modelled from the spec: byte width of each component storage kind
(widths 8/16/32/64 bits per section 2 of the spec). -/
def componentByteSize : ComponentType → Nat
  | .Byte => 1
  | .UnsignedByte => 1
  | .Short => 2
  | .UnsignedShort => 2
  | .Int => 4
  | .UnsignedInt => 4
  | .Float => 4
  | .Double => 8

/-- Modelled from the spec: natural packed byte size of one element
(`getElementByteSize` of `fastgltf_types.hpp`). -/
def getElementByteSize (t : AccessorType) (ct : ComponentType) : Nat :=
  getNumComponents t * componentByteSize ct

/-- The component storage kinds holding machine integers. -/
def isIntegral : ComponentType → Bool
  | .Float => false
  | .Double => false
  | _ => true

/-- The component storage kinds holding signed machine integers. -/
def isSigned : ComponentType → Bool
  | .Byte => true
  | .Short => true
  | .Int => true
  | _ => false

/-- Little-endian value of a byte list (each entry taken mod 256,
matching the 8-bit bytes of the C++ memory model). -/
def leVal : List Nat → Nat
  | [] => 0
  | b :: rest => b % 256 + 256 * leVal rest

/-- The `w` little-endian bytes of a natural number. -/
def leBytes : Nat → Nat → List Nat
  | 0, _ => []
  | w + 1, n => n % 256 :: leBytes w (n / 256)

/-- Read `n` consecutive bytes starting at absolute offset `off`;
reads past the end of the buffer are undefined behaviour in C++ and
yield the junk byte 0 here. -/
def readBytes (bytes : List Nat) : Nat → Nat → List Nat
  | _, 0 => []
  | off, n + 1 => bytes.getD off 0 :: readBytes bytes (off + 1) n

/-- Two's-complement interpretation (signed) or plain wrap-around
(unsigned) of an integer into `m` bits: the value of a C++ integral
conversion to an `m`-bit type. -/
def intWrap (signed : Bool) (m : Nat) (i : Int) : Int :=
  let r := i % 2 ^ m
  if signed = true ∧ 2 ^ (m - 1) ≤ r then r - 2 ^ m else r

/-- Exact rational value of an IEEE-754 single-precision bit pattern.
Finite patterns are exact; exponent-all-ones patterns (Inf/NaN) are
given arbitrary finite values (no claim below decodes such a pattern
on one side of an equation only). -/
def f32val (n : Nat) : ℚ :=
  let s : Nat := n / 2 ^ 31 % 2
  let e : Nat := n / 2 ^ 23 % 2 ^ 8
  let m : Nat := n % 2 ^ 23
  let mag : ℚ := if e = 0 then mkRat m (2 ^ 149) else mkRat ((2 ^ 23 + m) * 2 ^ e) (2 ^ 150)
  if s = 1 then -mag else mag

/-- Exact rational value of an IEEE-754 double-precision bit pattern
(same conventions as `f32val`). -/
def f64val (n : Nat) : ℚ :=
  let s : Nat := n / 2 ^ 63 % 2
  let e : Nat := n / 2 ^ 52 % 2 ^ 11
  let m : Nat := n % 2 ^ 52
  let mag : ℚ := if e = 0 then mkRat m (2 ^ 1074) else mkRat ((2 ^ 52 + m) * 2 ^ e) (2 ^ 1075)
  if s = 1 then -mag else mag

/-- C++ truncation toward zero, the behaviour of `static_cast` from a
floating value to an integral type. -/
def ratTrunc (q : ℚ) : Int :=
  if 0 ≤ q then ⌊q⌋ else ⌈q⌉

/-- Value of the source component stored at a byte span, by storage kind:
the `reinterpret_cast<const SourceType*>(bytes)[Index]` read of
`internal::convertComponent`. Callers pass exactly
`componentByteSize ct` bytes. -/
def decodeComponent (ct : ComponentType) (bs : List Nat) : ℚ :=
  match ct with
  | .Byte => ((intWrap true 8 (leVal bs) : Int) : ℚ)
  | .UnsignedByte => ((intWrap false 8 (leVal bs) : Int) : ℚ)
  | .Short => ((intWrap true 16 (leVal bs) : Int) : ℚ)
  | .UnsignedShort => ((intWrap false 16 (leVal bs) : Int) : ℚ)
  | .Int => ((intWrap true 32 (leVal bs) : Int) : ℚ)
  | .UnsignedInt => ((intWrap false 32 (leVal bs) : Int) : ℚ)
  | .Float => f32val (leVal bs % 2 ^ 32)
  | .Double => f64val (leVal bs % 2 ^ 64)

/-- The `static_cast<DestType>` of `internal::convertComponent`: numeric
conversion of the source value into the destination component kind.
Integral destinations truncate toward zero and wrap (the wrap models the
implementation-defined / UB out-of-range cases totally); floating
destinations are modelled as exact (C++ rounds to the nearest
representable value; no theorem below depends on that rounding). -/
def castTo (ct : ComponentType) (q : ℚ) : ℚ :=
  match ct with
  | .Byte => ((intWrap true 8 (ratTrunc q) : Int) : ℚ)
  | .UnsignedByte => ((intWrap false 8 (ratTrunc q) : Int) : ℚ)
  | .Short => ((intWrap true 16 (ratTrunc q) : Int) : ℚ)
  | .UnsignedShort => ((intWrap false 16 (ratTrunc q) : Int) : ℚ)
  | .Int => ((intWrap true 32 (ratTrunc q) : Int) : ℚ)
  | .UnsignedInt => ((intWrap false 32 (ratTrunc q) : Int) : ℚ)
  | .Float => q
  | .Double => q

/-- Object representation (little-endian bytes) of a stored component of
the given kind. Integral kinds are the two's-complement bytes of the
value; float kinds are a placeholder bit pattern (see the module
comment: no theorem depends on the byte image of a float component). -/
def encodeComponent (ct : ComponentType) (q : ℚ) : List Nat :=
  match ct with
  | .Byte => leBytes 1 (intWrap false 8 (ratTrunc q)).toNat
  | .UnsignedByte => leBytes 1 (intWrap false 8 (ratTrunc q)).toNat
  | .Short => leBytes 2 (intWrap false 16 (ratTrunc q)).toNat
  | .UnsignedShort => leBytes 2 (intWrap false 16 (ratTrunc q)).toNat
  | .Int => leBytes 4 (intWrap false 32 (ratTrunc q)).toNat
  | .UnsignedInt => leBytes 4 (intWrap false 32 (ratTrunc q)).toNat
  | .Float => leBytes 4 0
  | .Double => leBytes 8 0

/-- An output element: the list of its component values, in order. -/
abbrev Element := List ℚ

/-- The data of an `ElementTraits<ElementType>` specialization: the
declared element shape and the canonical component kind
(`enum_component_type` in the source). -/
structure ElementTraits where
  type : AccessorType
  componentKind : ComponentType
deriving DecidableEq, Repr

/-- `internal::getAccessorElementAt<ElementType>`: assemble one element
at byte offset `off`, reading `getNumComponents` consecutive source
components of kind `ct` and converting each to the element's component
kind. -/
def getAccessorElementAt (tr : ElementTraits) (ct : ComponentType) (bytes : List Nat)
    (off : Nat) : Element :=
  (List.range (getNumComponents tr.type)).map fun k =>
    castTo tr.componentKind (decodeComponent ct (readBytes bytes (off + k * componentByteSize ct) (componentByteSize ct)))

/-- The traits of `std::uint32_t` (`ElementTraits<std::uint32_t>`). -/
def trUInt32 : ElementTraits := ⟨AccessorType.Scalar, ComponentType.UnsignedInt⟩

/-- Extract the natural-number value of an unsigned integral component
value (its rational value is a non-negative integer). -/
def ratToNat (q : ℚ) : Nat := q.num.toNat

/-- The `internal::getAccessorElementAt<std::uint32_t>` instantiation
used by the sparse paths to decode one sparse index. -/
def getUInt32At (ct : ComponentType) (bytes : List Nat) (off : Nat) : Nat :=
  ratToNat ((getAccessorElementAt trUInt32 ct bytes off).getD 0 0)

/-- The value-initialized element `ElementType{}`: every component 0. -/
def zeroElement (tr : ElementTraits) : Element :=
  List.replicate (getNumComponents tr.type) 0

/-- Object representation of a whole stored element (the bytes written
by `*pDest = element`). -/
def encodeElement (tr : ElementTraits) (el : Element) : List Nat :=
  (el.map (encodeComponent tr.componentKind)).flatten

/-- Natural byte size of the element type itself,
`sizeof(ElementType)` for the built-in numeric element types. -/
def sizeOfElement (tr : ElementTraits) : Nat :=
  getNumComponents tr.type * componentByteSize tr.componentKind

/-- Modelled from the spec (section 3): the storage variants of a
buffer's `data` member. The owned in-memory byte sequence
(`sources::Vector`) and the borrowed view (`sources::ByteView`) carry
bytes; `other` stands for every remaining variant of the tag union. -/
inductive BufferData where
  | vector (bytes : List Nat)
  | byteView (bytes : List Nat)
  | other
deriving DecidableEq

/-- Modelled from the spec (section 3): a buffer record. -/
structure Buffer where
  data : BufferData
deriving DecidableEq

/-- Modelled from the spec (section 3): a buffer view record. -/
structure BufferView where
  bufferIndex : Nat
  byteOffset : Nat
  byteLength : Nat
  byteStride : Option Nat
deriving DecidableEq

/-- Modelled from the spec (section 3): a sparse descriptor, with the
field names used by the source (`accessor.sparse->bufferViewIndices`
and so on). -/
structure SparseAccessor where
  count : Nat
  bufferViewIndices : Nat
  byteOffsetIndices : Nat
  indexComponentType : ComponentType
  bufferViewValues : Nat
  byteOffsetValues : Nat
deriving DecidableEq

/-- Modelled from the spec (section 3): an accessor record. -/
structure Accessor where
  byteOffset : Nat
  count : Nat
  componentType : ComponentType
  type : AccessorType
  bufferViewIndex : Option Nat
  sparse : Option SparseAccessor
deriving DecidableEq

/-- Modelled from the spec (section 3): the asset graph parts the tools
read. -/
structure Asset where
  buffers : List Buffer
  bufferViews : List BufferView
deriving DecidableEq

/-- A buffer source adapter: `adapter(buffer)` returns the byte span of
the buffer, or `none` for the C++ null pointer. -/
abbrev Adapter := Buffer → Option (List Nat)

/-- `fastgltf::DefaultBufferDataAdapter`: resolves the owned vector and
the borrowed byte view, and returns the null pointer (`none`) for every
other storage variant. -/
def DefaultBufferDataAdapter : Adapter := fun buffer =>
  match buffer.data with
  | .vector bytes => some bytes
  | .byteView bytes => some bytes
  | .other => none

/-- Junk record produced by an out-of-range `std::vector` subscript
(undefined behaviour in C++, made total here). -/
def junkBufferView : BufferView := ⟨0, 0, 0, none⟩

/-- Junk record for an out-of-range buffer subscript. -/
def junkBuffer : Buffer := ⟨BufferData.other⟩

/-- `asset.bufferViews[i]` (unchecked subscript). -/
def viewAt (asset : Asset) (i : Nat) : BufferView :=
  asset.bufferViews.getD i junkBufferView

/-- The byte span `adapter(asset.buffers[bi])`. Dereferencing the null
pointer is undefined behaviour in C++; it is modelled as an empty byte
array, so every read through it yields the junk byte 0. -/
def bufferBytes (adapter : Adapter) (asset : Asset) (bi : Nat) : List Nat :=
  (adapter (asset.buffers.getD bi junkBuffer)).getD []

/-- The sparse index decoded at position `i` of the sparse index array:
`internal::getAccessorElementAt<std::uint32_t>(indexComponentType,
indicesBytes + indexStride * i)` with the index base and stride
computed as in the source. -/
def sparseIdx (adapter : Adapter) (asset : Asset) (sp : SparseAccessor) (i : Nat) : Nat :=
  let indicesView := viewAt asset sp.bufferViewIndices
  let indicesBytes := bufferBytes adapter asset indicesView.bufferIndex
  let indexStride := getElementByteSize AccessorType.Scalar sp.indexComponentType
  getUInt32At sp.indexComponentType indicesBytes
    (indicesView.byteOffset + sp.byteOffsetIndices + indexStride * i)

/-- The element decoded at raw position `k` of the sparse values array:
`internal::getAccessorElementAt<ElementType>(componentType,
valuesBytes + valueStride * k)` with the values base and stride computed
as in the source. -/
def sparseValue (tr : ElementTraits) (adapter : Adapter) (asset : Asset) (acc : Accessor)
    (sp : SparseAccessor) (k : Nat) : Element :=
  let valuesView := viewAt asset sp.bufferViewValues
  let valuesBytes := bufferBytes adapter asset valuesView.bufferIndex
  let valueStride := getElementByteSize acc.type acc.componentType
  getAccessorElementAt tr acc.componentType valuesBytes
    (valuesView.byteOffset + sp.byteOffsetValues + valueStride * k)

/-- `fastgltf::getAccessorElement<ElementType>`: single-element access.
Sparse branch: decode the sparse index stored at position `index` of the
index array and return the values-array element at that raw position.
Dense branch: the zero element when no buffer view backs the accessor,
otherwise the element assembled at
`view.byteOffset + accessor.byteOffset + index * stride`. -/
def getAccessorElement (adapter : Adapter) (tr : ElementTraits) (asset : Asset)
    (acc : Accessor) (index : Nat) : Element :=
  match acc.sparse with
  | some sp => sparseValue tr adapter asset acc sp (sparseIdx adapter asset sp index)
  | none =>
    match acc.bufferViewIndex with
    | none => zeroElement tr
    | some vi =>
      let view := viewAt asset vi
      let stride := view.byteStride.getD (getElementByteSize acc.type acc.componentType)
      let bytes := bufferBytes adapter asset view.bufferIndex
      getAccessorElementAt tr acc.componentType bytes
        (view.byteOffset + acc.byteOffset + index * stride)

/-- `fastgltf::iterateAccessor<ElementType>`: the sequence of elements
passed to the visitor, in call order. `some []` models the early return
on a declared-type mismatch; `none` models the undefined behaviour of
`*accessor.bufferViewIndex` on a non-sparse accessor with no buffer
view (the source dereferences the optional with no presence check). -/
def iterateAccessor (adapter : Adapter) (tr : ElementTraits) (asset : Asset)
    (acc : Accessor) : Option (List Element) :=
  if acc.type ≠ tr.type then some [] else
  match acc.sparse with
  | some sp =>
    some ((List.range sp.count).map fun i =>
      sparseValue tr adapter asset acc sp (sparseIdx adapter asset sp i))
  | none =>
    match acc.bufferViewIndex with
    | none => none
    | some vi =>
      let view := viewAt asset vi
      let stride := view.byteStride.getD (getElementByteSize acc.type acc.componentType)
      let bytes := bufferBytes adapter asset view.bufferIndex
      some ((List.range acc.count).map fun i =>
        getAccessorElementAt tr acc.componentType bytes
          (view.byteOffset + acc.byteOffset + i * stride))

/-- Overwrite the destination byte store with the given bytes starting
at offset `off` (one `memcpy` / element store). -/
def writeBytes (dest : Nat → Nat) (off : Nat) (bs : List Nat) : Nat → Nat :=
  fun a => if off ≤ a ∧ a < off + bs.length then bs.getD (a - off) 0 else dest a

/-- Write the blocks at destination offsets `TS * i0, TS * (i0 + 1), …`
in order: the destination-store effect of the per-element loops of
`copyFromAccessor`. -/
def writeSeqFrom (TS : Nat) : (Nat → Nat) → Nat → List (List Nat) → (Nat → Nat)
  | dest, _, [] => dest
  | dest, i0, b :: rest => writeSeqFrom TS (writeBytes dest (TS * i0) b) (i0 + 1) rest

/-- Write the blocks at destination offsets `TS * 0, TS * 1, …`. -/
def writeSeq (TS : Nat) (blocks : List (List Nat)) (dest : Nat → Nat) : Nat → Nat :=
  writeSeqFrom TS dest 0 blocks

/-- `fastgltf::copyFromAccessor<ElementType, TargetStride>`: effect on
the caller-owned destination byte store. `trivCopy` is the compile-time
`std::is_trivially_copyable_v<ElementType>` branch selector (true for
all built-in numeric element types); source reads and destination writes
are modelled in distinct address spaces (the C++ contract assumes the
destination does not alias the source buffers). -/
def copyFromAccessor (adapter : Adapter) (tr : ElementTraits) (TS : Nat) (trivCopy : Bool)
    (asset : Asset) (acc : Accessor) (dest : Nat → Nat) : Nat → Nat :=
  if acc.type ≠ tr.type then dest else
  match acc.sparse with
  | some sp =>
    writeSeq TS ((List.range sp.count).map fun i =>
      encodeElement tr (sparseValue tr adapter asset acc sp (sparseIdx adapter asset sp i))) dest
  | none =>
    let elemSize := getElementByteSize acc.type acc.componentType
    match acc.bufferViewIndex with
    | none =>
      if trivCopy then
        if TS = elemSize then
          writeBytes dest 0 (List.replicate (elemSize * acc.count) 0)
        else
          writeSeq TS ((List.range acc.count).map fun _ => List.replicate elemSize 0) dest
      else
        writeSeq TS ((List.range acc.count).map fun _ => encodeElement tr (zeroElement tr)) dest
    | some vi =>
      let view := viewAt asset vi
      let srcStride := view.byteStride.getD elemSize
      let srcBytes := bufferBytes adapter asset view.bufferIndex
      let base := view.byteOffset + acc.byteOffset
      if trivCopy then
        if srcStride = elemSize ∧ srcStride = TS then
          writeBytes dest 0 (readBytes srcBytes base (elemSize * acc.count))
        else
          writeSeq TS ((List.range acc.count).map fun i =>
            readBytes srcBytes (base + srcStride * i) elemSize) dest
      else
        writeSeq TS ((List.range acc.count).map fun i =>
          encodeElement tr (getAccessorElementAt tr acc.componentType srcBytes (base + srcStride * i))) dest

/-- The cursor merge of the repository's own sparse-accessor test
(`tests/accessor_tests.cpp`, `checkValues` loop): walk positions
`i = 0 .. remaining`, and at each position emit the overlay value and
advance the cursor when the cursor points at `i`, else emit the dense
base value. -/
def mergeScan (idxAt : Nat → Nat) (valAt baseAt : Nat → Element) (spCount : Nat) :
    Nat → Nat → Nat → List Element
  | _, _, 0 => []
  | i, s, r + 1 =>
    if s < spCount ∧ idxAt s = i then
      valAt s :: mergeScan idxAt valAt baseAt spCount (i + 1) (s + 1) r
    else
      baseAt i :: mergeScan idxAt valAt baseAt spCount (i + 1) s r

/-- The reference sequence `checkValues` of the repository's sparse
test, for a sparse accessor: the test's byte sources and strides (the
dense data at `view.byteOffset + accessor.byteOffset` with the view's
stride or the natural element size, the sparse indices and values at
their views' offsets with natural strides), merged by `mergeScan`.
The test reads the indices as the declared sparse index component type
and the values as the element type. -/
def testCheckValues (adapter : Adapter) (tr : ElementTraits) (asset : Asset)
    (acc : Accessor) : List Element :=
  match acc.sparse with
  | none => []
  | some sp =>
    let viewData := viewAt asset (acc.bufferViewIndex.getD 0)
    let dataBytes := bufferBytes adapter asset viewData.bufferIndex
    let dataBase := viewData.byteOffset + acc.byteOffset
    let dataStride := viewData.byteStride.getD (getElementByteSize acc.type acc.componentType)
    mergeScan (sparseIdx adapter asset sp)
      (sparseValue tr adapter asset acc sp)
      (fun i => getAccessorElementAt tr acc.componentType dataBytes (dataBase + dataStride * i))
      sp.count 0 0 acc.count

/-- Modelled from the spec (section 4.3, Storage Layout Resolver): the
effective stride of a dense accessor is the view's `byteStride` when
present, otherwise the natural packed size of
`(accessor.elementType, accessor.componentType)`. -/
def specStride (view : BufferView) (acc : Accessor) : Nat :=
  match view.byteStride with
  | some s => s
  | none => getElementByteSize acc.type acc.componentType

/-- Modelled from the spec (section 4.3): absolute byte offset of the
Nth element, `bufferView.byteOffset + accessor.byteOffset +
logical_index * stride`. -/
def specElementOffset (view : BufferView) (acc : Accessor) (i : Nat) : Nat :=
  view.byteOffset + acc.byteOffset + i * specStride view acc

/-- Modelled from the spec (section 4.4, Element Assembler): read
`arity` consecutive components of size `componentSize(kind)` each from
the located byte span, convert each with the conversion table to the
output component kind, and pack them positionally. -/
def specAssemble (tr : ElementTraits) (ct : ComponentType) (bytes : List Nat)
    (off : Nat) : Element :=
  (List.range (getNumComponents tr.type)).map fun k =>
    castTo tr.componentKind (decodeComponent ct (readBytes bytes (off + k * componentByteSize ct) (componentByteSize ct)))

/-- The traits of `std::uint8_t` (`ElementTraits<std::uint8_t>`). -/
def trUInt8 : ElementTraits := ⟨AccessorType.Scalar, ComponentType.UnsignedByte⟩

/-- The traits of `std::int8_t` (`ElementTraits<std::int8_t>`). -/
def trInt8 : ElementTraits := ⟨AccessorType.Scalar, ComponentType.Byte⟩

/-- A buffer whose data is the owned in-memory variant. -/
def mkVecBuffer (l : List Nat) : Buffer := ⟨BufferData.vector l⟩

/-- Concrete asset with a sparse setup: dense data bytes `[100, 101]`
(view 0), one sparse index byte `[1]` (view 1), and two sparse value
bytes `[10, 20]` (view 2). -/
def sparseAsset : Asset :=
  ⟨[mkVecBuffer [100, 101], mkVecBuffer [1], mkVecBuffer [10, 20]],
   [⟨0, 0, 2, none⟩, ⟨1, 0, 1, none⟩, ⟨2, 0, 2, none⟩]⟩

/-- Sparse descriptor over `sparseAsset`: one overlay entry, unsigned
byte indices in view 1, values in view 2. -/
def sparseDesc : SparseAccessor := ⟨1, 1, 0, ComponentType.UnsignedByte, 2, 0⟩

/-- A scalar unsigned-byte accessor of count 2 over `sparseAsset`, with
the sparse overlay `sparseDesc` and dense data in view 0. -/
def sparseAcc : Accessor :=
  ⟨0, 2, ComponentType.UnsignedByte, AccessorType.Scalar, some 0, some sparseDesc⟩

/-- `sparseAcc` with no backing buffer view (zeros base per the glTF
rule quoted in the source). -/
def sparseAccNoView : Accessor :=
  ⟨0, 2, ComponentType.UnsignedByte, AccessorType.Scalar, none, some sparseDesc⟩

/-- Concrete dense asset: one buffer `[5, 6, 7]` under one view. -/
def denseAsset : Asset := ⟨[mkVecBuffer [5, 6, 7]], [⟨0, 0, 3, none⟩]⟩

/-- A scalar unsigned-byte accessor of count 1 over `denseAsset`. -/
def denseAcc : Accessor :=
  ⟨0, 1, ComponentType.UnsignedByte, AccessorType.Scalar, some 0, none⟩

/-- A Vec3 unsigned-byte accessor of count 1 over `denseAsset` (element
shape deliberately different from the scalar traits). -/
def vec3Acc : Accessor :=
  ⟨0, 1, ComponentType.UnsignedByte, AccessorType.Vec3, some 0, none⟩

/-- A buffer whose storage variant is neither the owned vector nor the
borrowed byte view. -/
def otherBuffer : Buffer := ⟨BufferData.other⟩

/-- Asset whose only buffer has the unresolvable storage variant. -/
def otherAsset : Asset := ⟨[otherBuffer], [⟨0, 0, 4, none⟩]⟩

/-- A scalar unsigned-byte accessor of count 1 over `otherAsset`. -/
def otherAcc : Accessor :=
  ⟨0, 1, ComponentType.UnsignedByte, AccessorType.Scalar, some 0, none⟩

/-- Asset holding the four little-endian bytes of the IEEE-754 single
`1.0f` (`0x3F800000`). -/
def floatAsset : Asset := ⟨[mkVecBuffer [0, 0, 128, 63]], [⟨0, 0, 4, none⟩]⟩

/-- A scalar accessor of count 1 with `Float` component storage over
`floatAsset`. -/
def floatAcc : Accessor :=
  ⟨0, 1, ComponentType.Float, AccessorType.Scalar, some 0, none⟩

/-- Asset with two raw bytes `[255, 2]` for the integral fast-path
witness. -/
def intAsset : Asset := ⟨[mkVecBuffer [255, 2]], [⟨0, 0, 2, none⟩]⟩

/-- A scalar unsigned-byte accessor of count 2 over `intAsset`. -/
def intAcc : Accessor :=
  ⟨0, 2, ComponentType.UnsignedByte, AccessorType.Scalar, some 0, none⟩

/-- A destination byte store holding the junk byte 7 everywhere. -/
def dest7 : Nat → Nat := fun _ => 7

/-- A scalar unsigned-byte accessor with neither a sparse overlay nor a
backing buffer view. -/
def noViewAcc : Accessor :=
  ⟨0, 3, ComponentType.UnsignedByte, AccessorType.Scalar, none, none⟩


/-- The little-endian value of a byte list is bounded by the list's bit
width. -/
theorem leVal_lt (bs : List Nat) : leVal bs < 2 ^ (8 * bs.length) := by
  induction bs with
  | nil => simp [leVal]
  | cons b rest ih =>
    have hb : b % 256 < 256 := Nat.mod_lt _ (by norm_num)
    have hp : 2 ^ (8 * (b :: rest).length) = 256 * 2 ^ (8 * rest.length) := by
      have h8 : 8 * (b :: rest).length = 8 + 8 * rest.length := by
        simp [List.length_cons]; ring
      rw [h8, pow_add]; norm_num
    simp only [leVal]
    have h2 : 256 * leVal rest ≤ 256 * (2 ^ (8 * rest.length) - 1) :=
      Nat.mul_le_mul_left _ (by omega)
    omega

/-- Rebuilding a normalized byte list from its little-endian value is
the identity. -/
theorem leBytes_leVal (bs : List Nat) (h : ∀ x ∈ bs, x < 256) :
    leBytes bs.length (leVal bs) = bs := by
  induction bs with
  | nil => rfl
  | cons b rest ih =>
    have hb : b < 256 := h b (List.mem_cons_self _ _)
    have hb256 : b % 256 = b := Nat.mod_eq_of_lt hb
    have h1 : (b % 256 + 256 * leVal rest) % 256 = b := by
      rw [Nat.add_mul_mod_self_left, hb256, hb256]
    have h2 : (b % 256 + 256 * leVal rest) / 256 = leVal rest := by
      rw [Nat.add_mul_div_left _ _ (by norm_num : 0 < 256)]
      have : b % 256 / 256 = 0 := Nat.div_eq_of_lt (by omega)
      omega
    simp only [List.length_cons, leBytes, leVal, h1, h2]
    rw [ih fun x hx => h x (List.mem_cons_of_mem _ hx)]

/-- `leBytes` always produces exactly `w` bytes. -/
theorem leBytes_length (w : Nat) : ∀ n, (leBytes w n).length = w := by
  induction w with
  | zero => intro n; rfl
  | succ w ih => intro n; simp [leBytes, ih]

/-- Truncation toward zero of an integer-valued rational is that
integer. -/
theorem ratTrunc_intCast (i : Int) : ratTrunc (i : ℚ) = i := by
  unfold ratTrunc
  by_cases h : (0 : ℚ) ≤ (i : ℚ)
  · simp [h, Int.floor_intCast]
  · simp [h, Int.ceil_intCast]

/-- The unsigned wrap is plain `emod`. -/
theorem intWrap_false (m : Nat) (i : Int) : intWrap false m i = i % 2 ^ m := by
  simp [intWrap]

/-- Wrapping (signed or unsigned) does not change the value modulo the
type's modulus. -/
theorem intWrap_emod (s : Bool) (m : Nat) (i : Int) :
    intWrap s m i % 2 ^ m = i % 2 ^ m := by
  by_cases h : s = true ∧ 2 ^ (m - 1) ≤ i % 2 ^ m
  · simp only [intWrap, if_pos h]
    rw [Int.sub_emod, Int.emod_self, Int.sub_zero,
      Int.emod_emod_of_dvd _ dvd_rfl, Int.emod_emod_of_dvd _ dvd_rfl]
  · simp only [intWrap, if_neg h]
    exact Int.emod_emod_of_dvd _ dvd_rfl

/-- `readBytes` always produces exactly `n` bytes. -/
theorem readBytes_length (bytes : List Nat) : ∀ off n, (readBytes bytes off n).length = n := by
  intro off n
  induction n generalizing off with
  | zero => rfl
  | succ n ih => simp [readBytes, ih]

/-- Reading a range splits at any interior point. -/
theorem readBytes_append (bytes : List Nat) :
    ∀ (a off b : Nat), readBytes bytes off (a + b) = readBytes bytes off a ++ readBytes bytes (off + a) b := by
  intro a
  induction a with
  | zero => intro off b; simp [readBytes]
  | succ a ih =>
    intro off b
    have h1 : a + 1 + b = (a + b) + 1 := by omega
    have h2 : off + (a + 1) = (off + 1) + a := by omega
    rw [h1, readBytes, readBytes, h2, ih (off + 1) b]
    rfl

/-- Bytes read from a normalized buffer are below 256 (the junk byte 0
included). -/
theorem readBytes_lt (bytes : List Nat) (h : ∀ x ∈ bytes, x < 256) :
    ∀ off n, ∀ x ∈ readBytes bytes off n, x < 256 := by
  intro off n
  induction n generalizing off with
  | zero => intro x hx; simp [readBytes] at hx
  | succ n ih =>
    intro x hx
    simp only [readBytes, List.mem_cons] at hx
    rcases hx with hx | hx
    · subst hx
      by_cases hoff : off < bytes.length
      · rw [List.getD_eq_getElem _ _ hoff]
        exact h _ (List.getElem_mem hoff)
      · rw [List.getD_eq_default _ _ (by omega)]
        norm_num
    · exact ih (off + 1) x hx

/-- Consecutive fixed-width chunk reads concatenate to one long read. -/
theorem readBytes_flatten (bytes : List Nat) (off w : Nat) :
    ∀ n, (((List.range n).map fun k => readBytes bytes (off + k * w) w)).flatten
      = readBytes bytes off (n * w) := by
  intro n
  induction n with
  | zero => simp [readBytes]
  | succ n ih =>
    rw [List.range_succ, List.map_append, List.flatten_append, ih]
    have h1 : (n + 1) * w = n * w + w := by ring
    rw [h1, readBytes_append]
    simp

/-- Reading from the empty byte array yields junk zeros. -/
theorem readBytes_nil (off : Nat) : ∀ n, readBytes [] off n = List.replicate n 0 := by
  intro n
  induction n generalizing off with
  | zero => rfl
  | succ n ih => simp [readBytes, List.replicate, ih]

/-- A list of zero bytes has little-endian value 0. -/
theorem leVal_replicate_zero : ∀ n, leVal (List.replicate n 0) = 0 := by
  intro n
  induction n with
  | zero => rfl
  | succ n ih => simp [List.replicate, leVal, ih]

/-- Wrapping zero gives zero. -/
theorem intWrap_zero (s : Bool) (m : Nat) : intWrap s m 0 = 0 := by
  unfold intWrap
  simp only [Int.zero_emod]
  rw [if_neg]
  rintro ⟨-, h⟩
  have : (0 : Int) < 2 ^ (m - 1) := by positivity
  omega

/-- The all-zero single-precision pattern decodes to 0. -/
theorem f32val_zero : f32val 0 = 0 := by decide

/-- The all-zero double-precision pattern decodes to 0. -/
theorem f64val_zero : f64val 0 = 0 := by decide

/-- Truncating zero gives zero. -/
theorem ratTrunc_zero : ratTrunc 0 = 0 := by
  simp [ratTrunc]

/-- Zero bytes decode to the component value 0 under every storage
kind. -/
theorem decodeComponent_replicate_zero (ct : ComponentType) (n : Nat) :
    decodeComponent ct (List.replicate n 0) = 0 := by
  cases ct <;>
    simp [decodeComponent, leVal_replicate_zero, intWrap_zero, f32val_zero, f64val_zero]

/-- Converting the value 0 gives 0 under every component kind. -/
theorem castTo_zero (ct : ComponentType) : castTo ct 0 = 0 := by
  cases ct <;> simp [castTo, ratTrunc_zero, intWrap_zero]

/-- Assembling an element from the empty byte array gives the zero
element. -/
theorem getAccessorElementAt_nil (tr : ElementTraits) (ct : ComponentType) (off : Nat) :
    getAccessorElementAt tr ct [] off = zeroElement tr := by
  unfold getAccessorElementAt zeroElement
  refine List.eq_replicate_iff.mpr ⟨by simp, ?_⟩
  intro b hb
  simp only [List.mem_map, List.mem_range] at hb
  obtain ⟨k, -, rfl⟩ := hb
  rw [readBytes_nil, decodeComponent_replicate_zero, castTo_zero]

/-- An assembled element has the traits' arity. -/
theorem getAccessorElementAt_length (tr : ElementTraits) (ct : ComponentType)
    (bytes : List Nat) (off : Nat) :
    (getAccessorElementAt tr ct bytes off).length = getNumComponents tr.type := by
  simp [getAccessorElementAt]

/-- An encoded component occupies its kind's byte width. -/
theorem encodeComponent_length (ct : ComponentType) (q : ℚ) :
    (encodeComponent ct q).length = componentByteSize ct := by
  cases ct <;> simp [encodeComponent, leBytes_length, componentByteSize]

/-- An encoded element occupies one byte-width slot per component. -/
theorem encodeElement_length (tr : ElementTraits) (el : Element) :
    (encodeElement tr el).length = el.length * componentByteSize tr.componentKind := by
  induction el with
  | nil => simp [encodeElement]
  | cons x rest ih =>
    simp only [encodeElement, List.map_cons, List.flatten_cons, List.length_append,
      List.length_cons] at ih ⊢
    rw [encodeComponent_length, ih]
    ring

/-- Integral decoding characterized by signedness and width. -/
theorem decodeComponent_integral (s : ComponentType) (hs : isIntegral s = true) (bs : List Nat) :
    decodeComponent s bs
      = ((intWrap (isSigned s) (8 * componentByteSize s) (leVal bs) : Int) : ℚ) := by
  cases s <;> first | rfl | simp [isIntegral] at hs

/-- Integral conversion characterized by signedness and width. -/
theorem castTo_integral (d : ComponentType) (hd : isIntegral d = true) (q : ℚ) :
    castTo d q = ((intWrap (isSigned d) (8 * componentByteSize d) (ratTrunc q) : Int) : ℚ) := by
  cases d <;> first | rfl | simp [isIntegral] at hd

/-- Integral encoding characterized by width. -/
theorem encodeComponent_integral (d : ComponentType) (hd : isIntegral d = true) (q : ℚ) :
    encodeComponent d q
      = leBytes (componentByteSize d) (intWrap false (8 * componentByteSize d) (ratTrunc q)).toNat := by
  cases d <;> first | rfl | simp [isIntegral] at hd

/-- Round trip: decoding an integral component, converting it to an
integral kind of the same width, and re-encoding it reproduces the
source bytes. -/
theorem encode_castTo_decode (s d : ComponentType) (bs : List Nat)
    (hs : isIntegral s = true) (hd : isIntegral d = true)
    (hw : componentByteSize s = componentByteSize d)
    (hlen : bs.length = componentByteSize s)
    (hb : ∀ x ∈ bs, x < 256) :
    encodeComponent d (castTo d (decodeComponent s bs)) = bs := by
  rw [decodeComponent_integral s hs, castTo_integral d hd, encodeComponent_integral d hd,
    ratTrunc_intCast, ratTrunc_intCast, ← hw]
  have hL : ((leVal bs : Nat) : Int) % 2 ^ (8 * componentByteSize s) = ((leVal bs : Nat) : Int) := by
    apply Int.emod_eq_of_lt (by positivity)
    have := leVal_lt bs
    rw [hlen] at this
    exact_mod_cast this
  rw [intWrap_false, intWrap_emod, intWrap_emod, hL, Int.toNat_natCast, ← hlen,
    leBytes_leVal bs hb]

/-- Element-level round trip: the object representation of an element
assembled from an integral source of the element's own width is exactly
the source bytes. -/
theorem encodeElement_assemble (tr : ElementTraits) (ct : ComponentType)
    (bytes : List Nat) (off : Nat)
    (hs : isIntegral ct = true) (hd : isIntegral tr.componentKind = true)
    (hw : componentByteSize ct = componentByteSize tr.componentKind)
    (hb : ∀ x ∈ bytes, x < 256) :
    encodeElement tr (getAccessorElementAt tr ct bytes off)
      = readBytes bytes off (getNumComponents tr.type * componentByteSize ct) := by
  unfold encodeElement getAccessorElementAt
  rw [List.map_map]
  have hmap : (List.range (getNumComponents tr.type)).map
        (encodeComponent tr.componentKind ∘ fun k =>
          castTo tr.componentKind (decodeComponent ct
            (readBytes bytes (off + k * componentByteSize ct) (componentByteSize ct))))
      = (List.range (getNumComponents tr.type)).map fun k =>
          readBytes bytes (off + k * componentByteSize ct) (componentByteSize ct) := by
    apply List.map_congr_left
    intro k _
    exact encode_castTo_decode ct tr.componentKind _ hs hd hw
      (readBytes_length _ _ _) (readBytes_lt bytes hb _ _)
  rw [hmap, readBytes_flatten]

/-- Indexing a map over `List.range`. -/
theorem mapRange_getD {α : Type} (f : Nat → α) (n i : Nat) (d : α) (h : i < n) :
    ((List.range n).map f).getD i d = f i := by
  rw [List.getD_eq_getElem _ _ (by simpa using h)]
  simp

/-- Addresses below the first written slot are untouched by a write
sequence. -/
theorem writeSeqFrom_below (TS : Nat) (blocks : List (List Nat)) :
    ∀ (dest : Nat → Nat) (i0 a : Nat), a < TS * i0 →
      writeSeqFrom TS dest i0 blocks a = dest a := by
  induction blocks with
  | nil => intro dest i0 a _; rfl
  | cons b rest ih =>
    intro dest i0 a h
    simp only [writeSeqFrom]
    rw [ih _ (i0 + 1) a (by nlinarith [Nat.mul_le_mul (le_refl TS) (Nat.le_succ i0)])]
    simp only [writeBytes]
    rw [if_neg (by omega)]

/-- Addresses at or beyond the end of the written slots are untouched by
a write sequence of blocks no longer than the stride. -/
theorem writeSeqFrom_above (TS : Nat) (blocks : List (List Nat)) :
    ∀ (dest : Nat → Nat) (i0 a : Nat), (∀ b ∈ blocks, b.length ≤ TS) →
      TS * (i0 + blocks.length) ≤ a → writeSeqFrom TS dest i0 blocks a = dest a := by
  induction blocks with
  | nil => intro dest i0 a _ _; rfl
  | cons b rest ih =>
    intro dest i0 a hL h
    simp only [writeSeqFrom]
    have hlen : TS * (i0 + 1 + rest.length) = TS * (i0 + (b :: rest).length) := by
      simp only [List.length_cons]; ring
    rw [ih _ (i0 + 1) a (fun x hx => hL x (List.mem_cons_of_mem _ hx)) (by rw [hlen]; exact h)]
    simp only [writeBytes]
    have hb : b.length ≤ TS := hL b (List.mem_cons_self _ _)
    have hc : TS * i0 + TS ≤ TS * (i0 + (b :: rest).length) := by
      have h1 : TS * (i0 + 1) ≤ TS * (i0 + (b :: rest).length) :=
        Nat.mul_le_mul (le_refl _) (by simp [List.length_cons])
      have h2 : TS * (i0 + 1) = TS * i0 + TS := by ring
      omega
    rw [if_neg (by omega)]

/-- Reading back the `j`-th written slot of a write sequence of blocks
no longer than the stride. -/
theorem writeSeqFrom_get (TS : Nat) (blocks : List (List Nat)) :
    ∀ (dest : Nat → Nat) (i0 j k : Nat), (∀ b ∈ blocks, b.length ≤ TS) →
      j < blocks.length → k < (blocks.getD j []).length →
      writeSeqFrom TS dest i0 blocks (TS * (i0 + j) + k) = (blocks.getD j []).getD k 0 := by
  induction blocks with
  | nil => intro dest i0 j k _ hj _; simp at hj
  | cons b rest ih =>
    intro dest i0 j k hL hj hk
    cases j with
    | zero =>
      simp only [List.getD_cons_zero] at hk ⊢
      simp only [writeSeqFrom]
      have hbTS : b.length ≤ TS := hL b (List.mem_cons_self _ _)
      have e0 : TS * (i0 + 0) = TS * i0 := by ring
      have e1 : TS * (i0 + 1) = TS * i0 + TS := by ring
      rw [writeSeqFrom_below TS rest _ (i0 + 1) _ (by omega)]
      simp only [writeBytes]
      rw [if_pos (by omega)]
      congr 1
      omega
    | succ j =>
      simp only [List.getD_cons_succ] at hk ⊢
      simp only [writeSeqFrom]
      have haddr : TS * (i0 + (j + 1)) + k = TS * ((i0 + 1) + j) + k := by ring_nf
      rw [haddr]
      exact ih _ (i0 + 1) j k (fun x hx => hL x (List.mem_cons_of_mem _ hx))
        (by simpa using hj) hk

/-- A write sequence of blocks of length exactly the stride equals one
contiguous write of the concatenation. -/
theorem writeSeqFrom_flat (TS : Nat) (blocks : List (List Nat)) :
    ∀ (dest : Nat → Nat) (i0 a : Nat), (∀ b ∈ blocks, b.length = TS) →
      writeSeqFrom TS dest i0 blocks a = writeBytes dest (TS * i0) blocks.flatten a := by
  induction blocks with
  | nil =>
    intro dest i0 a _
    simp only [writeSeqFrom, List.flatten_nil, writeBytes, List.length_nil]
    rw [if_neg (by omega)]
  | cons b rest ih =>
    intro dest i0 a hL
    have hb : b.length = TS := hL b (List.mem_cons_self _ _)
    simp only [writeSeqFrom, List.flatten_cons]
    rw [ih _ (i0 + 1) a (fun x hx => hL x (List.mem_cons_of_mem _ hx))]
    simp only [writeBytes, List.length_append]
    have e1 : TS * (i0 + 1) = TS * i0 + TS := by ring
    by_cases h1 : TS * (i0 + 1) ≤ a ∧ a < TS * (i0 + 1) + rest.flatten.length
    · rw [if_pos h1, if_pos (by omega)]
      rw [List.getD_append_right _ _ _ _ (by omega)]
      congr 1
      omega
    · rw [if_neg h1]
      by_cases h2 : TS * i0 ≤ a ∧ a < TS * i0 + b.length
      · rw [if_pos h2, if_pos (by omega)]
        rw [List.getD_append _ _ _ _ (by omega)]
      · rw [if_neg h2, if_neg (by omega)]

/-- Helper: a sparse values element has the traits' arity. -/
theorem sparseValue_length (tr : ElementTraits) (adapter : Adapter) (asset : Asset)
    (acc : Accessor) (sp : SparseAccessor) (k : Nat) :
    (sparseValue tr adapter asset acc sp k).length = getNumComponents tr.type := by
  simp [sparseValue, getAccessorElementAt]

/-- Helper: the dense branch of `getAccessorElement` performs exactly
the spec's layout computation, for every index whatsoever. -/
theorem getAccessorElement_dense_spec (adapter : Adapter) (tr : ElementTraits)
    (asset : Asset) (acc : Accessor) (vi i : Nat)
    (hsp : acc.sparse = none) (hv : acc.bufferViewIndex = some vi) :
    getAccessorElement adapter tr asset acc i
      = specAssemble tr acc.componentType
          (bufferBytes adapter asset (viewAt asset vi).bufferIndex)
          (specElementOffset (viewAt asset vi) acc i) := by
  simp only [getAccessorElement, specAssemble, specElementOffset, specStride, hsp, hv]
  cases h : (viewAt asset vi).byteStride with
  | none => simp [h, getAccessorElementAt]
  | some s => simp [h, getAccessorElementAt]

/-- Claim C1 (code evidence): the sparse point query at logical index 0
returns the values-array element at raw position `indices[0] = 1`
(the byte 20), although index 0 does not appear in the sparse index
list; the repository's own sparse test reference (`testCheckValues`,
the cursor merge REQUIREd by `tests/accessor_tests.cpp`) demands the
dense base element 100 at index 0 (and the merged sequence
`[[100], [10]]` overall). -/
theorem sparse_point_query_ignores_index_membership :
    getAccessorElement DefaultBufferDataAdapter trUInt8 sparseAsset sparseAcc 0 = [20]
      ∧ testCheckValues DefaultBufferDataAdapter trUInt8 sparseAsset sparseAcc = [[100], [10]] :=
  ⟨by decide, by decide⟩

/-- Claim C2 (code evidence): on a sparse accessor of count 2 with one
overlay entry, `iterateAccessor` invokes the visitor exactly once (the
sparse count), delivering `[[20]]`, while the repository's own test
requires the full merged sequence `[[100], [10]]` of length
`accessor.count = 2`. -/
theorem iterate_sparse_visits_sparse_count_only :
    iterateAccessor DefaultBufferDataAdapter trUInt8 sparseAsset sparseAcc = some [[20]]
      ∧ sparseAcc.count = 2
      ∧ testCheckValues DefaultBufferDataAdapter trUInt8 sparseAsset sparseAcc = [[100], [10]] :=
  ⟨by decide, rfl, by decide⟩

/-- Claim C3: for every non-sparse accessor with a backing buffer view
and every index below the count, the single-element query equals the
raw source bytes at `bufferView.byteOffset + accessor.byteOffset +
i * stride` reinterpreted under the declared component storage kind and
converted to the output element kind, with stride the view's
`byteStride` when present and the natural packed size otherwise. -/
theorem dense_get_matches_spec_layout (adapter : Adapter) (tr : ElementTraits)
    (asset : Asset) (acc : Accessor) (vi i : Nat)
    (hsp : acc.sparse = none) (hv : acc.bufferViewIndex = some vi) (hi : i < acc.count) :
    getAccessorElement adapter tr asset acc i
      = specAssemble tr acc.componentType
          (bufferBytes adapter asset (viewAt asset vi).bufferIndex)
          (specElementOffset (viewAt asset vi) acc i) :=
  getAccessorElement_dense_spec adapter tr asset acc vi i hsp hv

/-- Witness for C3 at a concrete dense accessor and index 0. -/
theorem dense_get_matches_spec_layout_witness :
    getAccessorElement DefaultBufferDataAdapter trUInt8 denseAsset denseAcc 0
      = specAssemble trUInt8 denseAcc.componentType
          (bufferBytes DefaultBufferDataAdapter denseAsset (viewAt denseAsset 0).bufferIndex)
          (specElementOffset (viewAt denseAsset 0) denseAcc 0) :=
  dense_get_matches_spec_layout DefaultBufferDataAdapter trUInt8 denseAsset denseAcc 0 0
    rfl rfl (by decide)

/-- Claim C4 (code evidence): on a sparse accessor with no backing
buffer view, `getAccessorElement` at the uncovered logical index 0
returns the overlay-formula value `[20]`, not the zero element `[0]`
required by the glTF rule quoted in the source's own comment; and
`copyFromAccessor` writes that value at slot 0 and leaves slot 1 at its
previous junk value 7, fully ignoring the zero-fill rule. -/
theorem zero_fill_violated_under_sparse_overlay :
    getAccessorElement DefaultBufferDataAdapter trUInt8 sparseAsset sparseAccNoView 0 = [20]
      ∧ zeroElement trUInt8 = [0]
      ∧ copyFromAccessor DefaultBufferDataAdapter trUInt8 1 true sparseAsset sparseAccNoView dest7 0 = 20
      ∧ copyFromAccessor DefaultBufferDataAdapter trUInt8 1 true sparseAsset sparseAccNoView dest7 1 = 7 :=
  ⟨by decide, rfl, by decide, by decide⟩

/-- Claim C5 counterexample: `getAccessorElement` performs no runtime
element-shape check: on an accessor whose declared shape (Vec3) differs
from the requested scalar traits it still reads buffer data and returns
the decoded element `[5]` instead of failing before any byte is read. -/
theorem get_element_no_type_check_counterexample :
    vec3Acc.type ≠ trUInt8.type
      ∧ getAccessorElement DefaultBufferDataAdapter trUInt8 denseAsset vec3Acc 0 = [5] :=
  ⟨by decide, by decide⟩

/-- Claim C5 (amended): on a declared-shape mismatch the bulk
operations return silently before reading any byte — `iterateAccessor`
invokes the visitor zero times and `copyFromAccessor` leaves every
destination byte unchanged — while `getAccessorElement` performs no
runtime check at all (see the counterexample). -/
theorem type_mismatch_silent_return (adapter : Adapter) (tr : ElementTraits) (TS : Nat)
    (trivCopy : Bool) (asset : Asset) (acc : Accessor) (dest : Nat → Nat)
    (h : acc.type ≠ tr.type) :
    iterateAccessor adapter tr asset acc = some []
      ∧ ∀ a, copyFromAccessor adapter tr TS trivCopy asset acc dest a = dest a := by
  constructor
  · unfold iterateAccessor
    rw [if_pos h]
  · intro a
    unfold copyFromAccessor
    rw [if_pos h]

/-- Witness for the amended C5 at a concrete mismatched accessor. -/
theorem type_mismatch_silent_return_witness :
    iterateAccessor DefaultBufferDataAdapter trUInt8 denseAsset vec3Acc = some []
      ∧ copyFromAccessor DefaultBufferDataAdapter trUInt8 1 true denseAsset vec3Acc dest7 5 = dest7 5 :=
  have h := type_mismatch_silent_return DefaultBufferDataAdapter trUInt8 1 true denseAsset
    vec3Acc dest7 (by decide)
  ⟨h.1, h.2 5⟩

/-- Claim C6 counterexample: locating the Nth element performs no index
check: on an accessor of count 1 the query at index 5 succeeds and
returns a decoded element (junk zeros from past the buffer's end)
instead of failing with an error. -/
theorem get_element_out_of_count_returns_value :
    denseAcc.count = 1
      ∧ getAccessorElement DefaultBufferDataAdapter trUInt8 denseAsset denseAcc 5 = [0] :=
  ⟨rfl, by decide⟩

/-- Claim C6 (amended): the dense element lookup performs no index or
bounds validation whatsoever: for every index at or past
`accessor.count` (hence for spans past the buffer's declared length,
undefined behaviour in C++, modelled as junk zero bytes) it decodes by
the same offset formula as in-range indices. -/
theorem dense_get_unchecked_any_index (adapter : Adapter) (tr : ElementTraits)
    (asset : Asset) (acc : Accessor) (vi j : Nat)
    (hsp : acc.sparse = none) (hv : acc.bufferViewIndex = some vi) :
    getAccessorElement adapter tr asset acc (acc.count + j)
      = specAssemble tr acc.componentType
          (bufferBytes adapter asset (viewAt asset vi).bufferIndex)
          (specElementOffset (viewAt asset vi) acc (acc.count + j)) :=
  getAccessorElement_dense_spec adapter tr asset acc vi (acc.count + j) hsp hv

/-- Witness for the amended C6 at index `count + 4 = 5` of a count-1
accessor. -/
theorem dense_get_unchecked_any_index_witness :
    getAccessorElement DefaultBufferDataAdapter trUInt8 denseAsset denseAcc (denseAcc.count + 4)
      = specAssemble trUInt8 denseAcc.componentType
          (bufferBytes DefaultBufferDataAdapter denseAsset (viewAt denseAsset 0).bufferIndex)
          (specElementOffset (viewAt denseAsset 0) denseAcc (denseAcc.count + 4)) :=
  dense_get_unchecked_any_index DefaultBufferDataAdapter trUInt8 denseAsset denseAcc 0 4 rfl rfl

/-- Claim C8 counterexample: for a buffer of the unresolvable storage
variant the default adapter does yield the null span, but
`getAccessorElement` performs no null check and still returns a decoded
element (junk zeros) instead of reporting any error. -/
theorem null_adapter_still_decodes :
    DefaultBufferDataAdapter otherBuffer = none
      ∧ getAccessorElement DefaultBufferDataAdapter trUInt8 otherAsset otherAcc 0 = [0] :=
  ⟨rfl, by decide⟩

/-- Claim C8 (amended): the default adapter yields the null span for
every storage variant other than the owned vector and the borrowed
view; the decoding operations perform no null check and read through it
(undefined behaviour in C++, modelled as junk zero bytes), producing
the zero-decoded element — no SourceUnavailable error exists in the
code. -/
theorem default_adapter_none_and_zero_decode :
    (∀ b : Buffer, b.data = BufferData.other → DefaultBufferDataAdapter b = none)
      ∧ (∀ (tr : ElementTraits) (asset : Asset) (acc : Accessor) (vi i : Nat),
          acc.sparse = none → acc.bufferViewIndex = some vi →
          (asset.buffers.getD (viewAt asset vi).bufferIndex junkBuffer).data = BufferData.other →
          getAccessorElement DefaultBufferDataAdapter tr asset acc i = zeroElement tr) := by
  constructor
  · intro b hb
    unfold DefaultBufferDataAdapter
    rw [hb]
  · intro tr asset acc vi i hsp hv hdata
    have hbytes : bufferBytes DefaultBufferDataAdapter asset (viewAt asset vi).bufferIndex = [] := by
      unfold bufferBytes DefaultBufferDataAdapter
      rw [hdata]
      rfl
    simp only [getAccessorElement, hsp, hv, hbytes]
    exact getAccessorElementAt_nil tr acc.componentType _

/-- Witness for the amended C8 at a concrete unresolvable buffer. -/
theorem default_adapter_none_and_zero_decode_witness :
    DefaultBufferDataAdapter otherBuffer = none
      ∧ getAccessorElement DefaultBufferDataAdapter trUInt8 otherAsset otherAcc 0 = zeroElement trUInt8 :=
  ⟨default_adapter_none_and_zero_decode.1 otherBuffer rfl,
   default_adapter_none_and_zero_decode.2 trUInt8 otherAsset otherAcc 0 0 rfl rfl rfl⟩

/-- Claim C9: `iterateAccessor` dereferences `accessor.bufferViewIndex`
with no presence check in its non-sparse branch — an accessor with
neither sparse data nor a buffer view hits undefined behaviour
(modelled `none`) instead of the zero-element rule; under the
precondition that a buffer view is present the operation is total; and
`getAccessorElement` (unlike `iterateAccessor`) handles the same
accessor by the zero-element rule. -/
theorem iterate_requires_buffer_view :
    (∀ (adapter : Adapter) (tr : ElementTraits) (asset : Asset) (acc : Accessor),
        acc.type = tr.type → acc.sparse = none → acc.bufferViewIndex = none →
        iterateAccessor adapter tr asset acc = none)
      ∧ (∀ (adapter : Adapter) (tr : ElementTraits) (asset : Asset) (acc : Accessor) (vi : Nat),
          acc.sparse = none → acc.bufferViewIndex = some vi →
          (iterateAccessor adapter tr asset acc).isSome = true)
      ∧ (∀ (adapter : Adapter) (tr : ElementTraits) (asset : Asset) (acc : Accessor) (i : Nat),
          acc.sparse = none → acc.bufferViewIndex = none →
          getAccessorElement adapter tr asset acc i = zeroElement tr) := by
  refine ⟨?_, ?_, ?_⟩
  · intro adapter tr asset acc hty hsp hv
    simp [iterateAccessor, hty, hsp, hv]
  · intro adapter tr asset acc vi hsp hv
    by_cases hty : acc.type = tr.type
    · simp [iterateAccessor, hty, hsp, hv]
    · simp [iterateAccessor, hty]
  · intro adapter tr asset acc i hsp hv
    simp [getAccessorElement, hsp, hv]

/-- Witness for C9 at concrete accessors with and without a view. -/
theorem iterate_requires_buffer_view_witness :
    iterateAccessor DefaultBufferDataAdapter trUInt8 denseAsset noViewAcc = none
      ∧ (iterateAccessor DefaultBufferDataAdapter trUInt8 denseAsset denseAcc).isSome = true
      ∧ getAccessorElement DefaultBufferDataAdapter trUInt8 denseAsset noViewAcc 0 = zeroElement trUInt8 :=
  ⟨iterate_requires_buffer_view.1 DefaultBufferDataAdapter trUInt8 denseAsset noViewAcc rfl rfl rfl,
   iterate_requires_buffer_view.2.1 DefaultBufferDataAdapter trUInt8 denseAsset denseAcc 0 rfl rfl,
   iterate_requires_buffer_view.2.2 DefaultBufferDataAdapter trUInt8 denseAsset noViewAcc 0 rfl rfl⟩

/-- Claim C10: on a sparse accessor whose declared type matches the
traits, `copyFromAccessor` writes exactly `sparse.count` elements, at
destination byte offsets `TargetStride * i` for `i` below
`sparse.count` — the overlay values in index-array order, which are the
same elements `getAccessorElement` yields at logical indices
`0 .. sparse.count` — and every destination byte at offset
`TargetStride * sparse.count` or beyond keeps its previous value
(stated for target strides of at least the element's byte size, which
holds for the template default `TargetStride = sizeof(ElementType)`). -/
theorem copy_sparse_frame_and_placement (adapter : Adapter) (tr : ElementTraits) (TS : Nat)
    (trivCopy : Bool) (asset : Asset) (acc : Accessor) (sp : SparseAccessor) (dest : Nat → Nat)
    (hsp : acc.sparse = some sp) (hty : acc.type = tr.type) (hTS : sizeOfElement tr ≤ TS) :
    (∀ a, TS * sp.count ≤ a → copyFromAccessor adapter tr TS trivCopy asset acc dest a = dest a)
      ∧ (∀ i k, i < sp.count → k < sizeOfElement tr →
          copyFromAccessor adapter tr TS trivCopy asset acc dest (TS * i + k)
            = (encodeElement tr (getAccessorElement adapter tr asset acc i)).getD k 0) := by
  have hlen : ∀ i, (encodeElement tr
      (sparseValue tr adapter asset acc sp (sparseIdx adapter asset sp i))).length
      = sizeOfElement tr := by
    intro i
    rw [encodeElement_length, sparseValue_length]
    rfl
  have hred : copyFromAccessor adapter tr TS trivCopy asset acc dest
      = writeSeqFrom TS dest 0 ((List.range sp.count).map fun i =>
          encodeElement tr (sparseValue tr adapter asset acc sp (sparseIdx adapter asset sp i))) := by
    unfold copyFromAccessor
    rw [if_neg (by simp [hty])]
    simp only [hsp]
    unfold writeSeq
    rfl
  have hball : ∀ b ∈ (List.range sp.count).map fun i =>
      encodeElement tr (sparseValue tr adapter asset acc sp (sparseIdx adapter asset sp i)),
      b.length ≤ TS := by
    intro b hb
    simp only [List.mem_map, List.mem_range] at hb
    obtain ⟨i, -, rfl⟩ := hb
    rw [hlen]
    exact hTS
  constructor
  · intro a ha
    rw [hred]
    apply writeSeqFrom_above TS _ dest 0 a hball
    simpa using ha
  · intro i k hi hk
    rw [hred]
    have hgd : ((List.range sp.count).map fun i =>
        encodeElement tr (sparseValue tr adapter asset acc sp (sparseIdx adapter asset sp i))).getD i []
        = encodeElement tr (sparseValue tr adapter asset acc sp (sparseIdx adapter asset sp i)) :=
      mapRange_getD _ _ _ _ hi
    have haddr : TS * i + k = TS * (0 + i) + k := by simp
    rw [haddr, writeSeqFrom_get TS _ dest 0 i k hball (by simpa using hi)
      (by rw [hgd, hlen]; exact hk)]
    have hget : getAccessorElement adapter tr asset acc i
        = sparseValue tr adapter asset acc sp (sparseIdx adapter asset sp i) := by
      simp only [getAccessorElement, hsp]
    rw [hgd, hget]

/-- Witness for C10 at the concrete sparse accessor, stride 1. -/
theorem copy_sparse_frame_and_placement_witness :
    copyFromAccessor DefaultBufferDataAdapter trUInt8 1 true sparseAsset sparseAcc dest7 1 = dest7 1
      ∧ copyFromAccessor DefaultBufferDataAdapter trUInt8 1 true sparseAsset sparseAcc dest7 0
          = (encodeElement trUInt8
              (getAccessorElement DefaultBufferDataAdapter trUInt8 sparseAsset sparseAcc 0)).getD 0 0 := by
  have h := copy_sparse_frame_and_placement DefaultBufferDataAdapter trUInt8 1 true sparseAsset
    sparseAcc sparseDesc dest7 rfl rfl (by decide)
  exact ⟨h.1 1 (by decide), by simpa using h.2 0 0 (by decide) (by decide)⟩

/-- Claim C7 counterexample: on a scalar accessor with `Float` storage
holding the bytes of `1.0f` (`[0, 0, 128, 63]`) read into a `uint32`
element, the fast path is eligible (source stride = element size =
target stride = 4) yet the bulk byte copy writes the raw byte `63` at
destination offset 3 while the per-element assemble-and-write path
writes the converted value 1, i.e. the byte `0` there: the two paths
are not byte-identical. -/
theorem fast_path_differs_float_source :
    copyFromAccessor DefaultBufferDataAdapter trUInt32 4 true floatAsset floatAcc dest7 3 = 63
      ∧ copyFromAccessor DefaultBufferDataAdapter trUInt32 4 false floatAsset floatAcc dest7 3 = 0 :=
  ⟨by decide, by decide⟩

/-- Claim C7 (amended): the flat-copy fast path is byte-identical to
the per-element assemble-and-write path whenever it is eligible (source
stride, source element size and destination stride all equal, with the
element's own byte size also equal to them, as the flat-layout premise
gives) and both the accessor's storage kind and the element's component
kind are integral; the counterexample shows the claim fails as stated
when a `Float` source is decoded into an integral element. -/
theorem fast_path_matches_assemble_integral (adapter : Adapter) (tr : ElementTraits)
    (TS : Nat) (asset : Asset) (acc : Accessor) (vi : Nat) (dest : Nat → Nat)
    (hsp : acc.sparse = none) (hv : acc.bufferViewIndex = some vi) (hty : acc.type = tr.type)
    (htr : tr.type ≠ AccessorType.Invalid)
    (hstride : (viewAt asset vi).byteStride.getD (getElementByteSize acc.type acc.componentType)
      = getElementByteSize acc.type acc.componentType)
    (hTS : TS = getElementByteSize acc.type acc.componentType)
    (hsz : sizeOfElement tr = getElementByteSize acc.type acc.componentType)
    (hs : isIntegral acc.componentType = true) (hd : isIntegral tr.componentKind = true)
    (hb : ∀ x ∈ bufferBytes adapter asset (viewAt asset vi).bufferIndex, x < 256) :
    ∀ a, copyFromAccessor adapter tr TS true asset acc dest a
      = copyFromAccessor adapter tr TS false asset acc dest a := by
  intro a
  have hnty : ¬acc.type ≠ tr.type := by simp [hty]
  have hnc : 0 < getNumComponents tr.type := by
    cases t : tr.type <;> simp_all [getNumComponents]
  have hww : componentByteSize acc.componentType = componentByteSize tr.componentKind := by
    have h2 := hsz
    unfold sizeOfElement getElementByteSize at h2
    rw [hty] at h2
    exact (Nat.eq_of_mul_eq_mul_left hnc h2).symm
  have hE : getNumComponents tr.type * componentByteSize acc.componentType
      = getElementByteSize acc.type acc.componentType := by
    unfold getElementByteSize
    rw [hty]
  have hfast : copyFromAccessor adapter tr TS true asset acc dest
      = writeBytes dest 0
          (readBytes (bufferBytes adapter asset (viewAt asset vi).bufferIndex)
            ((viewAt asset vi).byteOffset + acc.byteOffset)
            (getElementByteSize acc.type acc.componentType * acc.count)) := by
    unfold copyFromAccessor
    rw [if_neg hnty]
    simp only [hsp, hv, hstride]
    have hcond : True ∧ getElementByteSize acc.type acc.componentType = TS :=
      ⟨trivial, hTS.symm⟩
    rw [if_pos hcond, if_pos trivial]
  have hslow : copyFromAccessor adapter tr TS false asset acc dest
      = writeSeqFrom TS dest 0 ((List.range acc.count).map fun i =>
          encodeElement tr (getAccessorElementAt tr acc.componentType
            (bufferBytes adapter asset (viewAt asset vi).bufferIndex)
            ((viewAt asset vi).byteOffset + acc.byteOffset
              + getElementByteSize acc.type acc.componentType * i))) := by
    unfold copyFromAccessor writeSeq
    rw [if_neg hnty]
    simp only [hsp, hv, hstride]
    rfl
  have hflat : ∀ b ∈ (List.range acc.count).map fun i =>
      encodeElement tr (getAccessorElementAt tr acc.componentType
        (bufferBytes adapter asset (viewAt asset vi).bufferIndex)
        ((viewAt asset vi).byteOffset + acc.byteOffset
          + getElementByteSize acc.type acc.componentType * i)),
      b.length = TS := by
    intro b hb'
    simp only [List.mem_map, List.mem_range] at hb'
    obtain ⟨i, -, rfl⟩ := hb'
    rw [encodeElement_length, getAccessorElementAt_length]
    show sizeOfElement tr = TS
    rw [hsz, hTS]
  have hjoin : ((List.range acc.count).map fun i =>
      encodeElement tr (getAccessorElementAt tr acc.componentType
        (bufferBytes adapter asset (viewAt asset vi).bufferIndex)
        ((viewAt asset vi).byteOffset + acc.byteOffset
          + getElementByteSize acc.type acc.componentType * i))).flatten
      = readBytes (bufferBytes adapter asset (viewAt asset vi).bufferIndex)
          ((viewAt asset vi).byteOffset + acc.byteOffset)
          (getElementByteSize acc.type acc.componentType * acc.count) := by
    have hcong : ((List.range acc.count).map fun i =>
        encodeElement tr (getAccessorElementAt tr acc.componentType
          (bufferBytes adapter asset (viewAt asset vi).bufferIndex)
          ((viewAt asset vi).byteOffset + acc.byteOffset
            + getElementByteSize acc.type acc.componentType * i)))
        = (List.range acc.count).map fun i =>
            readBytes (bufferBytes adapter asset (viewAt asset vi).bufferIndex)
              ((viewAt asset vi).byteOffset + acc.byteOffset
                + i * getElementByteSize acc.type acc.componentType)
              (getElementByteSize acc.type acc.componentType) := by
      apply List.map_congr_left
      intro i _
      rw [encodeElement_assemble tr acc.componentType _ _ hs hd hww hb, hE,
        Nat.mul_comm (getElementByteSize acc.type acc.componentType) i]
    rw [hcong, readBytes_flatten,
      Nat.mul_comm acc.count (getElementByteSize acc.type acc.componentType)]
  rw [hfast, hslow, writeSeqFrom_flat TS _ dest 0 a hflat, hjoin, Nat.mul_zero]

/-- Witness for the amended C7: on a two-byte unsigned accessor read
into `int8` elements (an eligible, all-integral configuration) the two
paths agree, here evaluated at destination address 0. -/
theorem fast_path_matches_assemble_integral_witness :
    copyFromAccessor DefaultBufferDataAdapter trInt8 1 true intAsset intAcc dest7 0
      = copyFromAccessor DefaultBufferDataAdapter trInt8 1 false intAsset intAcc dest7 0 :=
  fast_path_matches_assemble_integral DefaultBufferDataAdapter trInt8 1 intAsset intAcc 0 dest7
    rfl rfl rfl (by decide) rfl rfl rfl rfl rfl (by decide) 0

end fastgltf
